import Mathlib

/-!
Verification of the verco interactive mode engine (Rust sources under src/).

The Rust code is shallowly embedded: strings are modelled as `List Char`
(the Rust code indexes bytes; UTF-8 byte positions are tracked explicitly
where the source does, via `Char.utf8Size`), `usize` as `Nat` with
saturating subtraction matching Rust's `saturating_sub`, and `usize::MAX`
as the explicit constant `USIZE_MAX`.  Stateful methods become functions
from the receiver to the updated receiver, and side effects (spawned
backend requests, posted events) become explicit lists of request/event
values returned next to the updated state.
-/

/-- Terminal key, from `platform.rs` (`enum Key`).  `End` is a Lean keyword,
so that constructor is named `endKey`. -/
inductive Key where
  | none
  | backspace
  | enter
  | left
  | right
  | up
  | down
  | home
  | endKey
  | pageUp
  | pageDown
  | tab
  | delete
  | f (n : Nat)
  | char (c : Char)
  | ctrl (c : Char)
  | alt (c : Char)
  | esc
deriving DecidableEq

/-- Modelled from the spec: the implementation of `Key::is_submit` is not in
the sources (only callers are); spec section 4.11 says Enter submits. -/
def Key.is_submit (k : Key) : Bool :=
  k == Key.enter

/-- Modelled from the spec: the implementation of `Key::is_cancel` is not in
the sources (only callers are); spec sections 4.11 and 4.3 say Esc cancels. -/
def Key.is_cancel (k : Key) : Bool :=
  k == Key.esc

/-- Rust `char::to_ascii_lowercase`. -/
def toAsciiLowercase (c : Char) : Char :=
  if 65 ≤ c.toNat ∧ c.toNat ≤ 90 then Char.ofNat (c.toNat + 32) else c

/-- Rust `char::eq_ignore_ascii_case`. -/
def eqIgnoreAsciiCase (a b : Char) : Bool :=
  toAsciiLowercase a == toAsciiLowercase b

/-- Rust `char::is_ascii_alphanumeric`. -/
def isAsciiAlphanumeric (c : Char) : Bool :=
  (48 ≤ c.toNat && c.toNat ≤ 57) || (65 ≤ c.toNat && c.toNat ≤ 90) ||
    (97 ≤ c.toNat && c.toNat ≤ 122)

/-- Rust `char::is_ascii_whitespace` (space, tab, newline, form feed,
carriage return). -/
def isAsciiWhitespace (c : Char) : Bool :=
  c == ' ' || c == '\t' || c == '\n' || c == (Char.ofNat 12) || c == '\r'

/-- The loop of `fuzzy_matches` (`mode.rs`): walks `text` carrying the
current UTF-8 byte index `i`, the current pattern char `pc` with the rest of
the pattern `ps`, the byte index of the previous match `prev`, and the
`was_alphanumeric` flag `wasAl` (which the source updates on every
pattern-equal text char, matched or not). -/
def fuzzyLoop : List Char → Nat → Char → List Char → Nat → Bool → Bool
  | [], _, _, _, _, _ => false
  | c :: rest, i, pc, ps, prev, wasAl =>
    if eqIgnoreAsciiCase c pc then
      let isAl := isAsciiAlphanumeric c
      let matched := !isAl || !wasAl || (prev + 1 == i)
      if matched then
        match ps with
        | [] => true
        | pc2 :: ps2 => fuzzyLoop rest (i + c.utf8Size) pc2 ps2 i isAl
      else
        fuzzyLoop rest (i + c.utf8Size) pc ps prev isAl
    else
      fuzzyLoop rest (i + c.utf8Size) pc ps prev wasAl

/-- `fuzzy_matches(text, pattern)` from `mode.rs`: empty pattern matches;
otherwise run the char-indices loop starting with
`previous_matched_index = 0` and `was_alphanumeric = false`. -/
def fuzzy_matches (text pattern : List Char) : Bool :=
  match pattern with
  | [] => true
  | pc :: ps => fuzzyLoop text 0 pc ps 0 false

/-- String-level convenience wrapper for `fuzzy_matches`. -/
def fuzzyS (text pattern : String) : Bool :=
  fuzzy_matches text.data pattern.data

/-- Rust `str::lines().count()`: one line per newline-separated segment,
with no final empty segment when the text ends in a newline. -/
def rustLinesCount (s : List Char) : Nat :=
  (s.filter (fun c => c == '\n')).length +
    (if s ≠ [] ∧ s.getLast? ≠ some '\n' then 1 else 0)

/-- `usize::MAX` on a 64-bit target. -/
def USIZE_MAX : Nat := 2 ^ 64 - 1

/-- The `Output` widget state (`mode.rs`): text, derived line count, scroll. -/
structure Output where
  text : List Char
  line_count : Nat
  scroll : Nat
deriving DecidableEq

instance : Inhabited Output := ⟨⟨[], 0, 0⟩⟩

/-- `Output::set`: replace the text, recompute `line_count`, reset scroll. -/
def Output.set (_o : Output) (s : List Char) : Output :=
  { text := s, line_count := rustLinesCount s, scroll := 0 }

/-- `Output::new`: default then `set`. -/
def Output.new (s : List Char) : Output :=
  Output.set default s

/-- `Output::on_key` (`mode.rs` lines 247-261): move the scroll according to
the key, then clamp with `line_count.saturating_sub(h).min(scroll)`.
Nat subtraction matches Rust's `saturating_sub`. -/
def Output.on_key (o : Output) (available_height : Nat) (key : Key) : Output :=
  let half_height := available_height / 2
  let scroll :=
    match key with
    | .down | .char 'j' => o.scroll + 1
    | .up | .char 'k' => o.scroll - 1
    | .ctrl 'h' | .home => 0
    | .ctrl 'e' | .endKey => USIZE_MAX
    | .ctrl 'd' | .pageDown => o.scroll + half_height
    | .ctrl 'u' | .pageUp => o.scroll - half_height
    | _ => o.scroll
  { o with scroll := min (o.line_count - available_height) scroll }

/-- The `ReadLine` widget state (`mode.rs`): the input buffer. -/
structure ReadLine where
  input : List Char
deriving DecidableEq

instance : Inhabited ReadLine := ⟨⟨[]⟩⟩

/-- `ReadLine::clear`. -/
def ReadLine.clear (_r : ReadLine) : ReadLine := ⟨[]⟩

/-- Rust `is_word` from `ReadLine::on_key` Ctrl-W handling.  The source uses
the Unicode-aware `char::is_alphanumeric`; on ASCII (where every claim
lives) it agrees with `Char.isAlphanum`. -/
def isWordChar (c : Char) : Bool :=
  c.isAlphanum || c == '_'

/-- Rust `rfind_boundary(chars, f)` from `ReadLine::on_key`: keep the prefix
up to and including the last char satisfying `f`; empty when none does. -/
def rfindBoundary (f : Char → Bool) (l : List Char) : List Char :=
  (l.reverse.dropWhile (fun c => !f c)).reverse

/-- `ReadLine::on_key` (`mode.rs` lines 277-312). -/
def ReadLine.on_key (r : ReadLine) (key : Key) : ReadLine :=
  match key with
  | .home | .ctrl 'u' => ⟨[]⟩
  | .ctrl 'w' =>
    match r.input.getLast? with
    | Option.none => r
    | Option.some c =>
      let rest := r.input.dropLast
      let kept :=
        if isWordChar c then
          rfindBoundary (fun ch => !isWordChar ch) rest
        else if isAsciiWhitespace c then
          rfindBoundary (fun ch => isWordChar ch || !isAsciiWhitespace ch) rest
        else
          rfindBoundary (fun ch => isWordChar ch || isAsciiWhitespace ch) rest
      ⟨kept⟩
  | .backspace => ⟨r.input.dropLast⟩
  | .char c => ⟨r.input ++ [c]⟩
  | _ => r

/-- `SelectMenuAction` (`mode.rs`). -/
inductive SelectMenuAction where
  | none
  | toggle (i : Nat)
  | toggleAll
deriving DecidableEq

/-- The `SelectMenu` widget state (`mode.rs`): cursor and scroll. -/
structure SelectMenu where
  cursor : Nat
  scroll : Nat
deriving DecidableEq

instance : Inhabited SelectMenu := ⟨⟨0, 0⟩⟩

/-- `SelectMenu::saturate_cursor`: clamp the cursor to
`entries_len.saturating_sub(1).min(cursor)`. -/
def SelectMenu.saturate_cursor (m : SelectMenu) (entries_len : Nat) : SelectMenu :=
  { m with cursor := min (entries_len - 1) m.cursor }

/-- `SelectMenu::on_remove_entry` (`mode.rs` lines 331-335). -/
def SelectMenu.on_remove_entry (m : SelectMenu) (index : Nat) : SelectMenu :=
  if index ≤ m.cursor then { m with cursor := m.cursor - 1 } else m

/-- `SelectMenu::on_key` (`mode.rs` lines 337-363): move the cursor, saturate
it, slide the scroll to keep the cursor visible, and report the action. -/
def SelectMenu.on_key (m : SelectMenu) (entries_len available_height : Nat)
    (key : Key) : SelectMenu × SelectMenuAction :=
  let half_height := available_height / 2
  let cursor :=
    match key with
    | .down | .ctrl 'n' | .char 'j' => m.cursor + 1
    | .up | .ctrl 'p' | .char 'k' => m.cursor - 1
    | .ctrl 'h' | .home => 0
    | .ctrl 'e' | .endKey => USIZE_MAX
    | .ctrl 'd' | .pageDown => m.cursor + half_height
    | .ctrl 'u' | .pageUp => m.cursor - half_height
    | _ => m.cursor
  let cursor := min (entries_len - 1) cursor
  let scroll :=
    if cursor < m.scroll then cursor
    else if cursor ≥ m.scroll + available_height then cursor + 1 - available_height
    else m.scroll
  let action :=
    match key with
    | .char ' ' => if cursor < entries_len then SelectMenuAction.toggle cursor else SelectMenuAction.none
    | .char 'a' => SelectMenuAction.toggleAll
    | _ => SelectMenuAction.none
  (⟨cursor, scroll⟩, action)

/-- The `FilterW` widget state (`mode.rs`): focus flag, pattern readline, and
the visible indices into the owner's entry list. -/
structure FilterW where
  has_focus : Bool
  readline : ReadLine
  visible_indices : List Nat
deriving DecidableEq

instance : Inhabited FilterW := ⟨⟨false, default, []⟩⟩

/-- `Filter::clear`. -/
def FilterW.clear (_f : FilterW) : FilterW := ⟨false, ⟨[]⟩, []⟩

/-- `Filter::enter`: focus and clear the pattern (visible indices kept). -/
def FilterW.enter (f : FilterW) : FilterW :=
  { f with has_focus := true, readline := ⟨[]⟩ }

/-- `Filter::on_key`: submit or Ctrl-F leaves focus keeping the pattern,
cancel leaves focus clearing it, anything else goes to the readline. -/
def FilterW.on_key (f : FilterW) (key : Key) : FilterW :=
  if key.is_submit || key == Key.ctrl 'f' then
    { f with has_focus := false }
  else if key.is_cancel then
    { f with has_focus := false, readline := ⟨[]⟩ }
  else
    { f with readline := f.readline.on_key key }

/-- The enumerate-and-push loop of `Filter::filter`, generic over the entry
type's `FilterEntry::fuzzy_matches` implementation `fm`. -/
def filterVisibleLoop (fm : α → List Char → Bool) (pattern : List Char) :
    Nat → List α → List Nat
  | _, [] => []
  | i, e :: es =>
    if fm e pattern then i :: filterVisibleLoop fm pattern (i + 1) es
    else filterVisibleLoop fm pattern (i + 1) es

/-- `Filter::filter`: rebuild `visible_indices` with the indices of the
entries whose `fuzzy_matches(pattern)` holds, in order. -/
def FilterW.filter (f : FilterW) (fm : α → List Char → Bool) (entries : List α) :
    FilterW :=
  { f with visible_indices := filterVisibleLoop fm f.readline.input 0 entries }

/-- `Filter::is_filtering`. -/
def FilterW.is_filtering (f : FilterW) : Bool :=
  f.has_focus || !f.readline.input.isEmpty

/-- `Filter::get_visible_index`. -/
def FilterW.get_visible_index (f : FilterW) (index : Nat) : Option Nat :=
  f.visible_indices[index]?

/-- The reverse loop of `Filter::on_remove_entry` (`mode.rs` lines 412-422),
processing position `i` of the vector then `i - 1` and so on; the source
compares `entry_index` against the loop position, decrementing the value at
positions above it, removing at the equal position, and breaking below. -/
def filterRemoveLoop (entry_index : Nat) : Nat → List Nat → List Nat
  | i, v =>
    if entry_index < i then
      let v2 := v.set i (v.getD i 0 - 1)
      match i with
      | 0 => v2
      | j + 1 => filterRemoveLoop entry_index j v2
    else if entry_index == i then
      let v2 := v.eraseIdx i
      match i with
      | 0 => v2
      | j + 1 => filterRemoveLoop entry_index j v2
    else v

/-- `Filter::on_remove_entry`: run the reverse loop from the last position
(no-op on an empty vector, as the Rust range `(0..0).rev()` is empty). -/
def FilterW.on_remove_entry (f : FilterW) (entry_index : Nat) : FilterW :=
  match f.visible_indices.length with
  | 0 => f
  | n + 1 => { f with visible_indices := filterRemoveLoop entry_index n f.visible_indices }


/-- `ModeKind` from `mode.rs` (nine screens). -/
inductive ModeKind where
  | status
  | log
  | revisionDetails
  | branches
  | tags
  | stash
  | diff
  | stashDetails
  | messageInput
deriving DecidableEq

/-- Abstraction of the `Mode` enum of `mode.rs` for the router/history model:
`kind` mirrors `Mode::mode_kind()` and `data` abstracts the variant's state
(cloning a mode copies both; nothing in `ModeBuf` inspects `data`). -/
structure MMode where
  kind : ModeKind
  data : Nat
deriving DecidableEq

/-- `BOUNDED_VEC_DEQUE_MAX_LEN` from `mode.rs`. -/
def BOUNDED_VEC_DEQUE_MAX_LEN : Nat := 5

/-- `BoundedVecDeque::push_back` of the `bounded_vec_deque` crate (an
external dependency): append at the back, first removing the front (oldest)
element when the deque is at capacity. -/
def boundedPushBack (h : List MMode) (v : MMode) : List MMode :=
  if BOUNDED_VEC_DEQUE_MAX_LEN ≤ h.length then h.drop 1 ++ [v] else h ++ [v]

/-- `ModeBuf` from `mode.rs`: the current mode and the bounded history. -/
structure ModeBuf where
  mode : MMode
  history : List MMode
deriving DecidableEq

/-- `ModeBuf::default`: Status mode, empty history. -/
def ModeBuf.init : ModeBuf := ⟨⟨ModeKind.status, 0⟩, []⟩

/-- `ModeBuf::enter_mode` (`mode.rs` lines 126-133): when the target kind
differs from the current mode's kind, push a clone of the current mode onto
the history; then the current mode becomes the default mode of kind `k` on
which `on_enter` ran — `on_enter` mutates only that fresh mode, abstracted
here by the arbitrary post-state `d`. -/
def ModeBuf.enter_mode (s : ModeBuf) (k : ModeKind) (d : Nat) : ModeBuf :=
  let history := if s.mode.kind ≠ k then boundedPushBack s.history s.mode else s.history
  { mode := ⟨k, d⟩, history := history }

/-- `ModeBuf::revert_mode` (`mode.rs` lines 135-141): pop the most recently
pushed mode and make it current; no-op on empty history. -/
def ModeBuf.revert_mode (s : ModeBuf) : ModeBuf :=
  match s.history.getLast? with
  | Option.none => s
  | Option.some m => { mode := m, history := s.history.dropLast }

/-- One router operation: a forward transition (with the abstract post-state
of `on_enter`) or a revert. -/
inductive MOp where
  | enter (k : ModeKind) (d : Nat)
  | revert

/-- Apply one router operation. -/
def ModeBuf.step (s : ModeBuf) (op : MOp) : ModeBuf :=
  match op with
  | .enter k d => s.enter_mode k d
  | .revert => s.revert_mode

/-- Run a sequence of router operations from the default `ModeBuf`. -/
def runOps (ops : List MOp) : ModeBuf :=
  ops.foldl ModeBuf.step ModeBuf.init

/-- Router well-formedness: history within capacity and no two adjacent
kinds equal along history-then-current. -/
def ModeBuf.wf (s : ModeBuf) : Prop :=
  s.history.length ≤ BOUNDED_VEC_DEQUE_MAX_LEN ∧
    List.Chain' (fun a b => a.kind ≠ b.kind) (s.history ++ [s.mode])

lemma modeBuf_wf_init : ModeBuf.init.wf := by
  constructor
  · simp [ModeBuf.init, BOUNDED_VEC_DEQUE_MAX_LEN]
  · simp [ModeBuf.init]

lemma modeBuf_wf_enter (s : ModeBuf) (hwf : s.wf) (k : ModeKind) (d : Nat) :
    (s.enter_mode k d).wf := by
  obtain ⟨hlen, hch⟩ := hwf
  by_cases hk : s.mode.kind = k
  · refine ⟨?_, ?_⟩ <;> simp only [ModeBuf.enter_mode, hk, ne_eq, not_true_eq_false,
      if_neg, ite_false, not_false_eq_true]
    · exact hlen
    · rw [List.chain'_append] at hch ⊢
      refine ⟨hch.1, List.chain'_singleton _, ?_⟩
      intro x hx y hy
      simp only [List.head?_cons, Option.mem_def, Option.some.injEq] at hy
      have := hch.2.2 x hx s.mode (by simp)
      rw [← hy]
      simpa [hk] using this
  · have hco : (s.enter_mode k d).history = boundedPushBack s.history s.mode := by
      simp [ModeBuf.enter_mode, hk]
    have hmo : (s.enter_mode k d).mode = ⟨k, d⟩ := rfl
    refine ⟨?_, ?_⟩
    · rw [hco]
      unfold boundedPushBack
      unfold BOUNDED_VEC_DEQUE_MAX_LEN at hlen ⊢
      split
      · simp only [List.length_append, List.length_drop, List.length_cons,
          List.length_nil]
        omega
      · rename_i hcap
        simp only [List.length_append, List.length_cons, List.length_nil]
        omega
    · rw [hco, hmo]
      unfold boundedPushBack
      have hlast : ∀ (l : List MMode), List.Chain' (fun a b => a.kind ≠ b.kind) (l ++ [s.mode]) →
          List.Chain' (fun a b => a.kind ≠ b.kind) ((l ++ [s.mode]) ++ [⟨k, d⟩]) := by
        intro l hl
        rw [List.chain'_append]
        refine ⟨hl, List.chain'_singleton _, ?_⟩
        intro x hx y hy
        simp only [List.getLast?_concat, Option.mem_def, Option.some.injEq] at hx
        simp only [List.head?_cons, Option.mem_def, Option.some.injEq] at hy
        rw [← hx, ← hy]
        exact hk
      split
      · rename_i hcap
        unfold BOUNDED_VEC_DEQUE_MAX_LEN at hcap
        have hdrop : s.history.drop 1 ++ [s.mode] = (s.history ++ [s.mode]).drop 1 := by
          rw [List.drop_append_of_le_length]
          omega
        have : List.Chain' (fun a b => a.kind ≠ b.kind) (s.history.drop 1 ++ [s.mode]) := by
          rw [hdrop, List.drop_one]
          exact hch.tail
        exact hlast _ this
      · exact hlast _ hch

lemma modeBuf_wf_revert (s : ModeBuf) (hwf : s.wf) : s.revert_mode.wf := by
  obtain ⟨hlen, hch⟩ := hwf
  unfold ModeBuf.revert_mode
  cases hl : s.history.getLast? with
  | none => exact ⟨hlen, hch⟩
  | some m =>
    have hne : s.history ≠ [] := by
      intro h
      rw [h] at hl
      simp at hl
    have heq : s.history.dropLast ++ [m] = s.history := by
      have h1 := List.dropLast_concat_getLast hne
      rw [List.getLast?_eq_getLast _ hne] at hl
      have : m = s.history.getLast hne := by
        exact (Option.some.injEq _ _ ▸ hl.symm)
      rw [this]
      exact h1
    constructor
    · simp only [List.length_dropLast]
      omega
    · simp only
      rw [heq]
      exact (List.chain'_append.mp hch).1

lemma modeBuf_wf_fold (ops : List MOp) (s : ModeBuf) (hwf : s.wf) :
    (ops.foldl ModeBuf.step s).wf := by
  induction ops generalizing s with
  | nil => exact hwf
  | cons op rest ih =>
    simp only [List.foldl_cons]
    apply ih
    cases op with
    | enter k d => exact modeBuf_wf_enter s hwf k d
    | revert => exact modeBuf_wf_revert s hwf

lemma modeBuf_wf_run (ops : List MOp) : (runOps ops).wf :=
  modeBuf_wf_fold ops ModeBuf.init modeBuf_wf_init

/-- C2: the mode history is a bounded deque of capacity 5.  For every
reachable router state: the history size is at most 5; a forward transition
to a kind different from the current mode's kind pushes a clone of the
current mode (via the bounded push that drops the oldest when full) and
installs the fresh mode; a forward transition to the same kind pushes
nothing; revert pops the most recently pushed mode and makes it current, and
is a no-op on an empty history; and immediately after any forward
transition the top of the history never has the same kind as the current
mode. -/
theorem C2_mode_history_bounded (ops : List MOp) :
    (runOps ops).history.length ≤ BOUNDED_VEC_DEQUE_MAX_LEN
    ∧ (∀ k d, (runOps ops).mode.kind ≠ k →
        ((runOps ops).enter_mode k d).history =
          boundedPushBack (runOps ops).history (runOps ops).mode
        ∧ ((runOps ops).enter_mode k d).mode = ⟨k, d⟩)
    ∧ (∀ k d, (runOps ops).mode.kind = k →
        ((runOps ops).enter_mode k d).history = (runOps ops).history)
    ∧ (∀ h m, (runOps ops).history = h ++ [m] → (runOps ops).revert_mode = ⟨m, h⟩)
    ∧ ((runOps ops).history = [] → (runOps ops).revert_mode = runOps ops)
    ∧ (∀ k d m, ((runOps ops).enter_mode k d).history.getLast? = some m →
        m.kind ≠ ((runOps ops).enter_mode k d).mode.kind) := by
  obtain ⟨hlen, hch⟩ := modeBuf_wf_run ops
  refine ⟨hlen, ?_, ?_, ?_, ?_, ?_⟩
  · intro k d hk
    exact ⟨by simp [ModeBuf.enter_mode, hk], rfl⟩
  · intro k d hk
    simp [ModeBuf.enter_mode, hk]
  · intro h m hm
    unfold ModeBuf.revert_mode
    rw [hm]
    simp [List.getLast?_concat, List.dropLast_concat]
  · intro h
    simp [ModeBuf.revert_mode, h]
  · intro k d m hm
    by_cases hk : (runOps ops).mode.kind = k
    · have hh : ((runOps ops).enter_mode k d).history = (runOps ops).history := by
        simp [ModeBuf.enter_mode, hk]
      rw [hh] at hm
      have hmode : ((runOps ops).enter_mode k d).mode = ⟨k, d⟩ := rfl
      rw [hmode]
      have h3 := (List.chain'_append.mp hch).2.2 m (by simp [hm]) (runOps ops).mode (by simp)
      simpa [hk] using h3
    · have hh : ((runOps ops).enter_mode k d).history =
          boundedPushBack (runOps ops).history (runOps ops).mode := by
        simp [ModeBuf.enter_mode, hk]
      rw [hh] at hm
      unfold boundedPushBack at hm
      have hmm : m = (runOps ops).mode := by
        rcases Decidable.em
            (BOUNDED_VEC_DEQUE_MAX_LEN ≤ (runOps ops).history.length) with hc | hc
        · rw [if_pos hc, List.getLast?_concat] at hm
          exact (Option.some.injEq _ _ ▸ hm).symm
        · rw [if_neg hc, List.getLast?_concat] at hm
          exact (Option.some.injEq _ _ ▸ hm).symm
      rw [hmm]
      exact hk

/-- Witness for C2 at a concrete run: one forward transition from the
default state keeps the history within bounds, and revert restores the
default Status mode. -/
theorem C2_mode_history_bounded_witness :
    (runOps [MOp.enter ModeKind.log 3]).history.length ≤ BOUNDED_VEC_DEQUE_MAX_LEN
    ∧ (runOps [MOp.enter ModeKind.log 3]).revert_mode = ⟨⟨ModeKind.status, 0⟩, []⟩ := by
  refine ⟨(C2_mode_history_bounded [MOp.enter ModeKind.log 3]).1, ?_⟩
  exact (C2_mode_history_bounded [MOp.enter ModeKind.log 3]).2.2.2.1 []
    ⟨ModeKind.status, 0⟩ (by decide)

lemma eq_ignore_ascii_case_lower (a b : Char) (h : eqIgnoreAsciiCase a b = true) :
    toAsciiLowercase a = toAsciiLowercase b := by
  simpa [eqIgnoreAsciiCase] using h

lemma fuzzyLoop_sublist (text : List Char) :
    ∀ (i : Nat) (pc : Char) (ps : List Char) (prev : Nat) (w : Bool),
      fuzzyLoop text i pc ps prev w = true →
      List.Sublist ((pc :: ps).map toAsciiLowercase) (text.map toAsciiLowercase) := by
  induction text with
  | nil =>
    intro i pc ps prev w h
    simp [fuzzyLoop] at h
  | cons c rest ih =>
    intro i pc ps prev w h
    rw [fuzzyLoop] at h
    by_cases he : eqIgnoreAsciiCase c pc = true
    · rw [if_pos he] at h
      have hlow := eq_ignore_ascii_case_lower c pc he
      by_cases hm : (!isAsciiAlphanumeric c || !w || (prev + 1 == i)) = true
      · rw [if_pos hm] at h
        cases ps with
        | nil =>
          simp only [List.map_cons, List.map_nil]
          rw [← hlow]
          exact (List.nil_sublist _).cons₂ _
        | cons pc2 ps2 =>
          have hrec := ih (i + c.utf8Size) pc2 ps2 i (isAsciiAlphanumeric c) h
          simp only [List.map_cons] at hrec ⊢
          rw [← hlow]
          exact hrec.cons₂ _
      · rw [if_neg hm] at h
        have hrec := ih (i + c.utf8Size) pc ps prev (isAsciiAlphanumeric c) h
        simp only [List.map_cons] at hrec ⊢
        exact hrec.cons _
    · rw [if_neg he] at h
      have hrec := ih (i + c.utf8Size) pc ps prev w h
      simp only [List.map_cons] at hrec ⊢
      exact hrec.cons _

/-- C3 counterexample: contrary to the claim, `fuzzy_matches("Cargo.toml",
"cto")` is `false` on the source (the matched `C` at byte 0 sets
`was_alphanumeric`, and the later `t` at byte 6 fails the adjacency test
`previous_matched_index + 1 == i`, with no non-alphanumeric pattern char
consumed in between to reset it), so filtering the three entries with
pattern `cto` yields `[]`, not `[2]`. -/
theorem C3_counterexample :
    fuzzyS "Cargo.toml" "cto" = false
    ∧ (FilterW.filter ⟨false, ⟨"cto".data⟩, []⟩ fuzzy_matches
        ["Readme.md".data, "src/main.rs".data, "Cargo.toml".data]).visible_indices ≠ [2] := by
  constructor
  · decide
  · decide

/-- C3 (amended): `fuzzy_matches` is a case-insensitive in-order matcher —
the empty pattern matches everything, a successful match embeds the pattern
as a subsequence of the text up to ASCII case, consecutive alphanumeric
pattern characters must match byte-adjacent text characters (`aXbXc` vs
`abc` fails), and the adjacency requirement is reset only when a
non-alphanumeric pattern character is consumed (`ab.cd` vs `a.c` matches);
consequently `fuzzy_matches("Cargo.toml","cto")` is false and filtering
`["Readme.md","src/main.rs","Cargo.toml"]` with pattern `cto` yields no
visible indices. -/
theorem C3_fuzzy_matches_amended :
    (∀ text : List Char, fuzzy_matches text [] = true)
    ∧ (∀ text pattern : List Char, fuzzy_matches text pattern = true →
        List.Sublist (pattern.map toAsciiLowercase) (text.map toAsciiLowercase))
    ∧ fuzzyS "ABC" "abc" = true
    ∧ fuzzyS "aXbXc" "abc" = false
    ∧ fuzzyS "ab.cd" "a.c" = true
    ∧ fuzzyS "Cargo.toml" "cto" = false
    ∧ (FilterW.filter ⟨false, ⟨"cto".data⟩, []⟩ fuzzy_matches
        ["Readme.md".data, "src/main.rs".data, "Cargo.toml".data]).visible_indices = [] := by
  refine ⟨fun _ => rfl, ?_, by decide, by decide, by decide, by decide, by decide⟩
  intro text pattern h
  cases pattern with
  | nil => simp
  | cons pc ps => exact fuzzyLoop_sublist text 0 pc ps 0 false h

/-- Witness for C3 at a concrete input: `fuzzy_matches "ac" "c"` holds, so
`c` (lowered) is a subsequence of `ac` (lowered). -/
theorem C3_fuzzy_matches_amended_witness :
    List.Sublist (['c'].map toAsciiLowercase) (['a', 'c'].map toAsciiLowercase) :=
  C3_fuzzy_matches_amended.2.1 ['a', 'c'] ['c'] (by decide)

/-- C5: evaluation of `Filter::on_remove_entry` at the failing input.  With
entries `["foo","bar","baz"]` and pattern `"z"` the filter computes
`visible_indices = [2]`; removing the underlying entry 2 leaves
`visible_indices = [2]` unchanged — the removed entry index is still
present (the loop compares `entry_index` with loop positions, not with the
stored values), violating the claimed invariant. -/
theorem C5_failing_eval :
    (FilterW.filter ⟨false, ⟨['z']⟩, []⟩ fuzzy_matches
      ["foo".data, "bar".data, "baz".data]).visible_indices = [2]
    ∧ ((FilterW.filter ⟨false, ⟨['z']⟩, []⟩ fuzzy_matches
        ["foo".data, "bar".data, "baz".data]).on_remove_entry 2).visible_indices = [2]
    ∧ 2 ∈ ((FilterW.filter ⟨false, ⟨['z']⟩, []⟩ fuzzy_matches
        ["foo".data, "bar".data, "baz".data]).on_remove_entry 2).visible_indices := by
  refine ⟨by decide, by decide, by decide⟩

lemma selectMenu_clamp_slide (n h0 x scr : Nat) (hh : 1 ≤ h0) :
    (0 < n → min (n - 1) x < n)
    ∧ (n = 0 → min (n - 1) x = 0)
    ∧ (h0 ≤ n →
        (if min (n - 1) x < scr then min (n - 1) x
         else if min (n - 1) x ≥ scr + h0 then min (n - 1) x + 1 - h0 else scr)
          ≤ min (n - 1) x
        ∧ min (n - 1) x <
          (if min (n - 1) x < scr then min (n - 1) x
           else if min (n - 1) x ≥ scr + h0 then min (n - 1) x + 1 - h0 else scr) + h0) := by
  have hmin : min (n - 1) x ≤ n - 1 := Nat.min_le_left _ _
  refine ⟨fun h => by omega, fun h => by omega, fun h => ?_⟩
  split_ifs <;> omega

/-- C6 counterexample: the claim quantifies over any `visible_rows`; with
`visible_rows = 0` and `n = 1 ≥ visible_rows`, pressing Down from
`cursor = 0, scroll = 0` produces `cursor = 0, scroll = 1`, violating
`scroll ≤ cursor < scroll + visible_rows` (which is unsatisfiable at
`visible_rows = 0`). -/
theorem C6_counterexample :
    (0 : Nat) ≤ 1
    ∧ ¬((SelectMenu.on_key ⟨0, 0⟩ 1 0 Key.down).1.scroll ≤
          (SelectMenu.on_key ⟨0, 0⟩ 1 0 Key.down).1.cursor
        ∧ (SelectMenu.on_key ⟨0, 0⟩ 1 0 Key.down).1.cursor <
            (SelectMenu.on_key ⟨0, 0⟩ 1 0 Key.down).1.scroll + 0) := by
  decide

/-- C6 (amended): after `SelectMenu::on_key` with any key, list length `n`
and any `visible_rows ≥ 1`: the cursor lies in `[0, n)` when `n > 0` and is
`0` when `n = 0`; and whenever `n ≥ visible_rows`,
`scroll ≤ cursor < scroll + visible_rows`. -/
theorem C6_select_menu_on_key (m : SelectMenu) (n h0 : Nat) (key : Key)
    (hh : 1 ≤ h0) :
    (0 < n → (m.on_key n h0 key).1.cursor < n)
    ∧ (n = 0 → (m.on_key n h0 key).1.cursor = 0)
    ∧ (h0 ≤ n →
        (m.on_key n h0 key).1.scroll ≤ (m.on_key n h0 key).1.cursor
        ∧ (m.on_key n h0 key).1.cursor < (m.on_key n h0 key).1.scroll + h0) := by
  unfold SelectMenu.on_key
  exact selectMenu_clamp_slide n h0 _ m.scroll hh

/-- Witness for C6 at a concrete input: two entries, one visible row,
pressing Down from the default menu keeps the cursor within bounds. -/
theorem C6_select_menu_on_key_witness :
    (SelectMenu.on_key ⟨0, 0⟩ 2 1 Key.down).1.cursor < 2 :=
  (C6_select_menu_on_key ⟨0, 0⟩ 2 1 Key.down (by decide)).1 (by decide)

/-- C7: after `Output::on_key`, the scroll equals the key's pre-clamp result
clamped by `min (·) (line_count - visible_rows)` (Nat subtraction is the
saturating `max(0, line_count − visible_rows)`), and for every key the
resulting scroll is within that clamp: Down adds 1, Up
saturating-subtracts 1, Home is 0, End is `usize::MAX` (so the clamp makes
it `line_count - visible_rows`), PageDown adds `visible_rows / 2`, PageUp
saturating-subtracts it; in particular End with `line_count < visible_rows`
leaves the scroll at 0. -/
theorem C7_output_on_key_clamped (o : Output) (h0 : Nat)
    (hlc : o.line_count ≤ USIZE_MAX) :
    (o.on_key h0 Key.down).scroll = min (o.scroll + 1) (o.line_count - h0)
    ∧ (o.on_key h0 Key.up).scroll = min (o.scroll - 1) (o.line_count - h0)
    ∧ (o.on_key h0 Key.home).scroll = 0
    ∧ (o.on_key h0 Key.endKey).scroll = o.line_count - h0
    ∧ (o.on_key h0 Key.pageDown).scroll = min (o.scroll + h0 / 2) (o.line_count - h0)
    ∧ (o.on_key h0 Key.pageUp).scroll = min (o.scroll - h0 / 2) (o.line_count - h0)
    ∧ (o.line_count < h0 → (o.on_key h0 Key.endKey).scroll = 0)
    ∧ (∀ key : Key, (o.on_key h0 key).scroll ≤ o.line_count - h0) := by
  have hend : o.line_count - h0 ≤ USIZE_MAX := le_trans (Nat.sub_le _ _) hlc
  unfold Output.on_key
  refine ⟨Nat.min_comm _ _, Nat.min_comm _ _, by simp, ?_, Nat.min_comm _ _,
    Nat.min_comm _ _, ?_, ?_⟩
  · exact Nat.min_eq_left hend
  · intro h
    simp only
    omega
  · intro key
    exact Nat.min_le_left _ _

/-- Witness for C7 at a concrete input: an empty output with one visible
row; Down keeps the scroll clamped to 0 and End with
`line_count < visible_rows` gives 0. -/
theorem C7_output_on_key_clamped_witness :
    (Output.on_key ⟨[], 0, 0⟩ 1 Key.down).scroll = min (0 + 1) (0 - 1)
    ∧ (Output.on_key ⟨[], 0, 0⟩ 1 Key.endKey).scroll = 0 :=
  ⟨(C7_output_on_key_clamped ⟨[], 0, 0⟩ 1 (by decide)).1,
    (C7_output_on_key_clamped ⟨[], 0, 0⟩ 1 (by decide)).2.2.2.2.2.2.1 (by decide)⟩

/-- C8 counterexample: with `cursor = 0`, removing entry 0 satisfies
`i ≤ cursor` but the cursor stays 0 (`saturating_sub`), so it is not
decremented by one as the claim states. -/
theorem C8_counterexample :
    (0 : Nat) ≤ 0
    ∧ (SelectMenu.on_remove_entry ⟨0, 5⟩ 0).cursor = 0
    ∧ ¬((SelectMenu.on_remove_entry ⟨0, 5⟩ 0).cursor + 1 = 0) := by
  decide

/-- C8 (amended): `SelectMenu::on_remove_entry(i)` decrements the cursor by
one exactly when `i ≤ cursor` and `cursor > 0` (the subtraction saturates at
0), and leaves the cursor unchanged otherwise. -/
theorem C8_on_remove_entry_decrement (m : SelectMenu) (i : Nat) :
    ((i ≤ m.cursor ∧ 1 ≤ m.cursor) ↔ (m.on_remove_entry i).cursor + 1 = m.cursor)
    ∧ (¬(i ≤ m.cursor ∧ 1 ≤ m.cursor) → (m.on_remove_entry i).cursor = m.cursor) := by
  unfold SelectMenu.on_remove_entry
  split_ifs with h
  · simp only
    constructor
    · constructor
      · intro hc
        omega
      · intro hc
        exact ⟨h, by omega⟩
    · intro hc
      omega
  · simp only
    constructor
    · constructor
      · intro hc
        exact absurd hc.1 h
      · intro hc
        omega
    · intro _
      trivial

/-- Witness for C8 at a concrete input: cursor 3, removing entry 1
decrements the cursor to 2. -/
theorem C8_on_remove_entry_decrement_witness :
    (SelectMenu.on_remove_entry ⟨3, 0⟩ 1).cursor + 1 = 3 :=
  (C8_on_remove_entry_decrement ⟨3, 0⟩ 1).1.mp (by decide)

/-- The NUL character. -/
def nulChar : Char := Char.ofNat 0

/-- Rust `str::split(sep)`: the fields between separators, empty fields
included (one more field than separators). -/
def splitOnChar (sep : Char) : List Char → List (List Char)
  | [] => [[]]
  | c :: rest =>
    let r := splitOnChar sep rest
    if c == sep then [] :: r
    else
      match r with
      | [] => [[c]]
      | h :: t => (c :: h) :: t

lemma splitOnChar_ne_nil (sep : Char) (l : List Char) : splitOnChar sep l ≠ [] := by
  cases l with
  | nil => simp [splitOnChar]
  | cons c rest =>
    simp only [splitOnChar]
    by_cases h : (c == sep) = true
    · simp [h]
    · simp only [h, if_false, Bool.false_eq_true]
      cases splitOnChar sep rest <;> simp

/-- Rust `char::is_whitespace` restricted to ASCII (space, tab, newline,
vertical tab, form feed, carriage return); the Unicode space characters the
Rust method also strips do not occur in any claim. -/
def rustIsWhitespace (c : Char) : Bool :=
  isAsciiWhitespace c || c == Char.ofNat 11

/-- Rust `str::trim`: strip whitespace from both ends. -/
def rustTrim (l : List Char) : List Char :=
  ((l.dropWhile rustIsWhitespace).reverse.dropWhile rustIsWhitespace).reverse

/-- `FileStatus` from `backend.rs` (the `_Missing` and `_Ignored` variants
are spelled without the underscore). -/
inductive FileStatus where
  | modified
  | added
  | deleted
  | renamed
  | untracked
  | copied
  | unmerged
  | missing
  | ignored
  | clean
  | unknown (raw : List Char)
deriving DecidableEq

/-- `RevisionEntry` from `backend.rs`. -/
structure RevisionEntry where
  selected : Bool
  name : List Char
  status : FileStatus
deriving DecidableEq

instance : Inhabited RevisionEntry := ⟨⟨false, [], FileStatus.unknown []⟩⟩

/-- `RevisionEntry::new`: not selected. -/
def RevisionEntry.new (name : List Char) (status : FileStatus) : RevisionEntry :=
  ⟨false, name, status⟩

/-- `StatusInfo` from `backend.rs`. -/
structure StatusInfo where
  header : List Char
  entries : List RevisionEntry
deriving DecidableEq

/-- `parse_file_status` (`git.rs` lines 410-422): map the first character of
the status field. -/
def parse_file_status (s : List Char) : FileStatus :=
  match s.head? with
  | some 'M' => FileStatus.modified
  | some 'A' => FileStatus.added
  | some 'D' => FileStatus.deleted
  | some 'R' => FileStatus.renamed
  | some '?' => FileStatus.untracked
  | some 'C' => FileStatus.copied
  | some 'U' => FileStatus.unmerged
  | some ' ' => FileStatus.clean
  | _ => FileStatus.unknown s

/-- The parsing performed by `Git::status` (`git.rs` lines 40-54) on the
subprocess output: split on NUL and trim every field; the first field is the
header; every further field of length at least 2 is split after its first
two characters into the status code and the (re-trimmed) path.  The source
measures `len` and `split_at` in bytes; on ASCII fields (git's porcelain
codes are ASCII) bytes and chars coincide. -/
def gitStatusParse (output : List Char) : StatusInfo :=
  let splits := (splitOnChar nulChar output).map rustTrim
  match splits with
  | [] => { header := [], entries := [] }
  | header :: rest =>
    { header := header
    , entries := (rest.filter (fun e => 2 ≤ e.length)).map (fun e =>
        RevisionEntry.new (rustTrim (e.drop 2)) (parse_file_status (e.take 2))) }

/-- The status parser as the claim words it (no trimming anywhere): split on
NUL, first field the header, each subsequent field of length at least 2
becomes an entry whose path is the field after the first two characters and
whose status comes from the field's first character. -/
def claimStatusParse (output : List Char) : StatusInfo :=
  let fields := splitOnChar nulChar output
  { header := fields.headD []
  , entries := (fields.tail.filter (fun e => 2 ≤ e.length)).map (fun e =>
      RevisionEntry.new (e.drop 2) (parse_file_status (e.take 2))) }

/-- The status parser as the amended claim words it: as `claimStatusParse`,
but every NUL-separated field is trimmed before the length test and split,
and the path is trimmed again after the split. -/
def amendedStatusParse (output : List Char) : StatusInfo :=
  let fields := (splitOnChar nulChar output).map rustTrim
  { header := fields.headD []
  , entries := (fields.tail.filter (fun e => 2 ≤ e.length)).map (fun e =>
      RevisionEntry.new (rustTrim (e.drop 2)) (parse_file_status (e.take 2))) }

/-- The git status output `header NUL " M foo"` that separates the code from
the claim: the field has a leading space. -/
def c9input : List Char := "header".data ++ [nulChar] ++ " M foo".data

/-- C9 counterexample: on the field `" M foo"` the code trims first, parsing
status `M` (Modified) and path `foo`, while the claim as stated (no trim)
would parse status space (Clean) and path `M foo`. -/
theorem C9_counterexample :
    (gitStatusParse c9input).entries =
      [⟨false, "foo".data, FileStatus.modified⟩]
    ∧ (claimStatusParse c9input).entries =
      [⟨false, " foo".data, FileStatus.clean⟩]
    ∧ gitStatusParse c9input ≠ claimStatusParse c9input := by
  refine ⟨by decide, by decide, by decide⟩

/-- C9 (amended): `Git::status` splits the backend output on NUL and trims
each field; the first trimmed field is the header, and every subsequent
trimmed field of length at least 2 becomes an entry whose path is the field
after its first two characters (trimmed) and whose status is determined by
the field's first character (M Modified, A Added, D Deleted, R Renamed,
? Untracked, C Copied, U Unmerged, space Clean, anything else Unknown of
the two-character code). -/
theorem C9_git_status_parse (output : List Char) :
    gitStatusParse output = amendedStatusParse output := by
  unfold gitStatusParse amendedStatusParse
  cases hs : splitOnChar nulChar output with
  | nil => exact absurd hs (splitOnChar_ne_nil nulChar output)
  | cons h t => simp

/-- Events a message-input keypress posts through the event sender
(`message_input.rs` lines 40-67): a mode revert, and a Status `Commit`
response carrying the typed message. -/
inductive MIEvent where
  | modeRevert
  | statusCommit (message : List Char)
deriving DecidableEq

/-- `State` of `message_input.rs` (only `Idle`). -/
inductive MIState where
  | idle
deriving DecidableEq

/-- The `message_input::Mode` state (`message_input.rs`). -/
structure MessageInputMode where
  state : MIState
  output : Output
  readline : ReadLine
  fromKind : ModeKind
deriving DecidableEq

instance : Inhabited MessageInputMode := ⟨⟨.idle, default, default, .status⟩⟩

/-- `message_input` `Mode::on_enter` (`message_input.rs` lines 32-38). -/
def MessageInputMode.on_enter (m : MessageInputMode) (info_from : ModeKind) :
    MessageInputMode :=
  { state := .idle, output := m.output.set [], readline := m.readline.clear,
    fromKind := info_from }

/-- `message_input` `Mode::on_key` (`message_input.rs` lines 40-67): feed
the key to the readline; on submit or cancel post a revert, and on submit
also post the typed message as a Status `Commit` response when the mode was
entered from Status; always report `pending_input = true`.  Returns the
updated mode, the `pending_input` flag, and the posted events in order. -/
def MessageInputMode.on_key (m : MessageInputMode) (key : Key) :
    MessageInputMode × Bool × List MIEvent :=
  let readline := m.readline.on_key key
  let events :=
    if key.is_submit || key.is_cancel then
      [MIEvent.modeRevert] ++
        (if key.is_submit then
          (if m.fromKind = ModeKind.status then [MIEvent.statusCommit readline.input]
           else [])
        else [])
    else []
  ({ m with readline := readline }, true, events)

/-- C4 counterexample: with `require_nonempty` semantics the claim expects
Enter on an empty input to be silently ignored with the prompt left open;
the source instead posts a revert (closing the prompt) followed by a Status
`Commit` response with the empty message — it never consults the payload's
emptiness flag. -/
theorem C4_counterexample :
    (MessageInputMode.on_key ⟨.idle, ⟨[], 0, 0⟩, ⟨[]⟩, .status⟩ Key.enter).2.2 =
      [MIEvent.modeRevert, MIEvent.statusCommit []] := by
  decide

/-- C4 (amended): in MessageInput, Enter always reverts and — when the mode
was entered from Status — submits the typed input (empty or not) as a
Status `Commit` response; Esc reverts submitting nothing and leaves the
input buffer as it was; any other key posts no event; and every keypress
reports `pending_input = true`. -/
theorem C4_message_input_on_key (m : MessageInputMode) (key : Key) :
    (m.on_key key).2.1 = true
    ∧ (key = Key.enter →
        (m.on_key key).2.2 =
          MIEvent.modeRevert ::
            (if m.fromKind = ModeKind.status then [MIEvent.statusCommit m.readline.input]
             else []))
    ∧ (key = Key.esc →
        (m.on_key key).2.2 = [MIEvent.modeRevert]
        ∧ (m.on_key key).1.readline = m.readline)
    ∧ (key ≠ Key.enter ∧ key ≠ Key.esc → (m.on_key key).2.2 = []) := by
  refine ⟨rfl, ?_, ?_, ?_⟩
  · intro h
    subst h
    simp [MessageInputMode.on_key, Key.is_submit, Key.is_cancel, ReadLine.on_key]
  · intro h
    subst h
    constructor
    · simp [MessageInputMode.on_key, Key.is_submit, Key.is_cancel]
    · simp [MessageInputMode.on_key, ReadLine.on_key]
  · intro h
    have hs : key.is_submit = false := by
      simp [Key.is_submit]
      intro hc
      exact absurd hc h.1
    have hc : key.is_cancel = false := by
      simp [Key.is_cancel]
      intro hc
      exact absurd hc h.2
    simp [MessageInputMode.on_key, hs, hc]

/-- Witness for C4 at a concrete input: Enter from Status with input `hi`
posts a revert followed by `Commit("hi")`. -/
theorem C4_message_input_on_key_witness :
    (MessageInputMode.on_key ⟨.idle, ⟨[], 0, 0⟩, ⟨['h', 'i']⟩, .status⟩ Key.enter).2.2 =
      [MIEvent.modeRevert, MIEvent.statusCommit ['h', 'i']] := by
  have h := (C4_message_input_on_key ⟨.idle, ⟨[], 0, 0⟩, ⟨['h', 'i']⟩, .status⟩
    Key.enter).2.1 rfl
  exact h.trans (by decide)

/-- Background requests spawned by mode code (each `thread::spawn` /
`request` call site becomes one value describing the backend work moved
into the worker). -/
inductive Req where
  | statusRefresh
  | statusCommit (message : List Char) (entries : List RevisionEntry) (amend : Bool)
  | statusStash (message : List Char) (entries : List RevisionEntry)
  | branchesRefresh
  | tagsRefresh
  | tagsNew (name : List Char)
  | stashRefresh
deriving DecidableEq

/-- `BackendResult<T>` (`backend.rs`): a value or an error string. -/
inductive BackendRes (α : Type) where
  | ok (value : α)
  | err (error : List Char)
deriving DecidableEq

/-- Alias of `fuzzy_matches`, usable inside the per-entry trait methods of
the same name. -/
def fuzzyOnText : List Char → List Char → Bool := fuzzy_matches

/-- `FilterEntry for RevisionEntry` (`backend.rs`): fuzzy on the name. -/
def RevisionEntry.fuzzy_matches (e : RevisionEntry) (pattern : List Char) : Bool :=
  fuzzyOnText e.name pattern

/-- Rust `slice::binary_search(&x)` position on a sorted slice: both
`Ok(i)` and `Err(i)` carry the index of the first element not below `x`
(the entries searched here are strictly ascending, so the found index is
unique). -/
def lowerBoundPos : List Nat → Nat → Nat
  | [], _ => 0
  | y :: ys, x => if y < x then lowerBoundPos ys x + 1 else 0

/-- Whether `slice::binary_search(&x)` returns `Ok` (the element is
present), paired with the position. -/
def binarySearchHit (v : List Nat) (x : Nat) : Bool × Nat :=
  let p := lowerBoundPos v x
  (v.getD p (x + 1) == x, p)

/-- `WaitOperation` of `status.rs`. -/
inductive StatusWaitOperation where
  | refresh
  | commit
  | discard
  | stash
  | resolveTakingOurs
  | resolveTakingTheirs
deriving DecidableEq

/-- `State` of `status.rs`. -/
inductive StatusState where
  | idle
  | waiting (op : StatusWaitOperation)
deriving DecidableEq

/-- The `status::Mode` state (`status.rs`). -/
structure StatusMode where
  state : StatusState
  entries : List RevisionEntry
  output : Output
  select : SelectMenu
  filter : FilterW
  fromKind : ModeKind
deriving DecidableEq

instance : Inhabited StatusMode := ⟨⟨.idle, [], default, default, default, .status⟩⟩

/-- `status::Response` (`status.rs`). -/
inductive StatusResponse where
  | idle
  | refresh (info : StatusInfo)
  | commit (message : List Char)
  | stash (message : List Char)
deriving DecidableEq

/-- `Mode::get_selected_entries` (`status.rs`). -/
def StatusMode.get_selected_entries (m : StatusMode) : List RevisionEntry :=
  m.entries.filter (fun e => e.selected)

/-- The reverse loop of `Mode::remove_selected_entries` (`status.rs` lines
82-92), processing entry position `i` then `i - 1` and so on: a selected
entry is removed from the entry list, the filter is told the entry index,
and the select menu is told the binary-search position of that index inside
the (already updated) visible indices. -/
def statusRemoveLoop : Nat → StatusMode → StatusMode
  | i, m =>
    let m2 :=
      if (m.entries.getD i default).selected then
        let filter := m.filter.on_remove_entry i
        let pos := lowerBoundPos filter.visible_indices i
        { m with
          entries := m.entries.eraseIdx i
          filter := filter
          select := m.select.on_remove_entry pos }
      else m
    match i with
    | 0 => m2
    | j + 1 => statusRemoveLoop j m2

/-- `Mode::remove_selected_entries` (`status.rs` lines 79-99): run the
reverse loop; if nothing was removed (no entry selected), clear the whole
entry list, reset the cursor and clear the filter. -/
def StatusMode.remove_selected_entries (m : StatusMode) : StatusMode :=
  let previous_len := m.entries.length
  let m2 :=
    match m.entries.length with
    | 0 => m
    | j + 1 => statusRemoveLoop j m
  if m2.entries.length == previous_len then
    { m2 with
      entries := []
      select := { m2.select with cursor := 0 }
      filter := m2.filter.clear }
  else m2

/-- `Mode::commit` (`status.rs` lines 101-121): set the waiting state, grab
the selected entries, drop them from the list, and spawn the backend commit
with the grabbed entries. -/
def StatusMode.commit (m : StatusMode) (message : List Char) (amend : Bool) :
    StatusMode × List Req :=
  let entries := m.get_selected_entries
  let m2 := StatusMode.remove_selected_entries { m with state := .waiting .commit }
  (m2, [Req.statusCommit message entries amend])

/-- `status` `Mode::on_enter` (`status.rs` lines 125-137): no-op while a
response is pending; otherwise enter the refresh-waiting state, clear the
output, re-filter, clamp the cursor, record the origin and spawn the status
refresh. -/
def StatusMode.on_enter (m : StatusMode) (info_from : ModeKind) :
    StatusMode × List Req :=
  match m.state with
  | .waiting _ => (m, [])
  | .idle =>
    let output := m.output.set []
    let filter := m.filter.filter RevisionEntry.fuzzy_matches m.entries
    let select := m.select.saturate_cursor filter.visible_indices.length
    ({ m with
      state := .waiting .refresh
      output := output
      filter := filter
      select := select
      fromKind := info_from }, [Req.statusRefresh])

/-- `status` `Mode::on_response` (`status.rs` lines 248-277). -/
def StatusMode.on_response (m : StatusMode) (r : StatusResponse) :
    StatusMode × List Req :=
  match r with
  | .refresh info =>
    let state := match m.state with | .waiting _ => StatusState.idle | s => s
    let output := match state with | .idle => m.output.set info.header | _ => m.output
    let entries := info.entries
    let filter := m.filter.filter RevisionEntry.fuzzy_matches entries
    let select := m.select.saturate_cursor filter.visible_indices.length
    ({ m with
      state := state
      output := output
      entries := entries
      filter := filter
      select := select }, [])
  | .commit message => m.commit message false
  | .stash message =>
    let entries := m.get_selected_entries
    let m2 := StatusMode.remove_selected_entries { m with state := .waiting .stash }
    (m2, [Req.statusStash message entries])
  | .idle => ({ m with state := .idle }, [])

/-- `BranchEntry` from `backend.rs`. -/
structure BranchEntry where
  name : List Char
  checked_out : Bool
deriving DecidableEq

/-- `FilterEntry for BranchEntry` (`backend.rs`): fuzzy on the name. -/
def BranchEntry.fuzzy_matches (e : BranchEntry) (pattern : List Char) : Bool :=
  fuzzyOnText e.name pattern

/-- `WaitOperation` of `branches.rs`. -/
inductive BranchesWaitOperation where
  | refresh
  | new
  | delete
  | merge
deriving DecidableEq

/-- `State` of `branches.rs`. -/
inductive BranchesState where
  | idle
  | waiting (op : BranchesWaitOperation)
  | newNameInput
deriving DecidableEq

/-- The `branches::Mode` state (`branches.rs`). -/
structure BranchesMode where
  state : BranchesState
  entries : List BranchEntry
  output : Output
  select : SelectMenu
  filter : FilterW
  readline : ReadLine
  fromKind : ModeKind
deriving DecidableEq

instance : Inhabited BranchesMode :=
  ⟨⟨.idle, [], default, default, default, default, .status⟩⟩

/-- `branches::Response` (`branches.rs`). -/
inductive BranchesResponse where
  | refresh (result : BackendRes (List BranchEntry))
  | checkout
  | merge
deriving DecidableEq

/-- `branches` `Mode::on_enter` (`branches.rs` lines 55-67): no-op while a
response is pending; otherwise enter the refresh-waiting state, clear the
output and readline, re-filter, clamp and spawn the branches refresh (the
change-info argument is ignored). -/
def BranchesMode.on_enter (m : BranchesMode) : BranchesMode × List Req :=
  match m.state with
  | .waiting _ => (m, [])
  | _ =>
    let output := m.output.set []
    let filter := m.filter.filter BranchEntry.fuzzy_matches m.entries
    let select := m.select.saturate_cursor filter.visible_indices.length
    ({ m with
      state := .waiting .refresh
      output := output
      filter := filter
      select := select
      readline := m.readline.clear }, [Req.branchesRefresh])

/-- `branches` `Mode::on_response` (`branches.rs` lines 170-198): a refresh
clears the list and output, leaves any waiting state, stores the fetched
entries (or the error into the output), re-filters, clamps, and rebinds the
cursor onto the checked-out branch when it is among the visible indices. -/
def BranchesMode.on_response (m : BranchesMode) (r : BranchesResponse) :
    BranchesMode × List Req :=
  match r with
  | .refresh result =>
    let state := match m.state with | .waiting _ => BranchesState.idle | s => s
    let (entries, output) :=
      match state with
      | .idle =>
        (match result with
         | .ok es => (es, m.output.set [])
         | .err e => (([] : List BranchEntry), (m.output.set []).set e))
      | _ => ([], m.output.set [])
    let filter := m.filter.filter BranchEntry.fuzzy_matches entries
    let select := m.select.saturate_cursor filter.visible_indices.length
    let select :=
      match entries.findIdx? (fun e => e.checked_out) with
      | some i =>
        let hit := binarySearchHit filter.visible_indices i
        if hit.1 then { select with cursor := hit.2 } else select
      | Option.none => select
    ({ m with
      state := state
      entries := entries
      output := output
      filter := filter
      select := select }, [])
  | .checkout => ({ m with state := .idle }, [])
  | .merge => ({ m with state := .idle }, [])

/-- `TagEntry` from `backend.rs`. -/
structure TagEntry where
  name : List Char
deriving DecidableEq

/-- `FilterEntry for TagEntry` (`backend.rs`): fuzzy on the name. -/
def TagEntry.fuzzy_matches (e : TagEntry) (pattern : List Char) : Bool :=
  fuzzyOnText e.name pattern

/-- `WaitOperation` of `tags.rs`. -/
inductive TagsWaitOperation where
  | refresh
  | new
  | delete
deriving DecidableEq

/-- `State` of `tags.rs`. -/
inductive TagsState where
  | idle
  | waiting (op : TagsWaitOperation)
deriving DecidableEq

/-- The `tags::Mode` state (`tags.rs`). -/
structure TagsMode where
  state : TagsState
  entries : List TagEntry
  output : Output
  select : SelectMenu
  filter : FilterW
deriving DecidableEq

instance : Inhabited TagsMode := ⟨⟨.idle, [], default, default, default⟩⟩

/-- `tags::Response` (`tags.rs`). -/
inductive TagsResponse where
  | refresh (result : BackendRes (List TagEntry))
  | checkout
  | new (name : List Char)
deriving DecidableEq

/-- `tags` `Mode::on_response` (`tags.rs` lines 125-151): a refresh behaves
as in branches (without the checked-out rebinding); `Checkout` goes idle; a
`New` response enters the new-waiting state and spawns the tag creation. -/
def TagsMode.on_response (m : TagsMode) (r : TagsResponse) : TagsMode × List Req :=
  match r with
  | .refresh result =>
    let state := match m.state with | .waiting _ => TagsState.idle | s => s
    let (entries, output) :=
      match state with
      | .idle =>
        (match result with
         | .ok es => (es, m.output.set [])
         | .err e => (([] : List TagEntry), (m.output.set []).set e))
      | _ => ([], m.output.set [])
    let filter := m.filter.filter TagEntry.fuzzy_matches entries
    let select := m.select.saturate_cursor filter.visible_indices.length
    ({ m with
      state := state
      entries := entries
      output := output
      filter := filter
      select := select }, [])
  | .checkout => ({ m with state := .idle }, [])
  | .new name => ({ m with state := .waiting .new }, [Req.tagsNew name])

/-- `StashEntry` from `backend.rs`. -/
structure StashEntry where
  id : Nat
  branch : List Char
  message : List Char
deriving DecidableEq

/-- `FilterEntry for StashEntry` (`backend.rs`): fuzzy on branch or
message. -/
def StashEntry.fuzzy_matches (e : StashEntry) (pattern : List Char) : Bool :=
  fuzzyOnText e.branch pattern || fuzzyOnText e.message pattern

/-- `WaitOperation` of `stash.rs`. -/
inductive StashWaitOperation where
  | refresh
  | discard
  | pop
deriving DecidableEq

/-- `State` of `stash.rs`. -/
inductive StashState where
  | idle
  | waiting (op : StashWaitOperation)
  | viewDetails (id : Nat)
  | viewDiff
deriving DecidableEq

/-- The `stash::Mode` state (`stash.rs`). -/
structure StashMode where
  state : StashState
  entries : List StashEntry
  output : Output
  select : SelectMenu
  filter : FilterW
deriving DecidableEq

instance : Inhabited StashMode := ⟨⟨.idle, [], default, default, default⟩⟩

/-- `stash::Response` (`stash.rs`). -/
inductive StashResponse where
  | refresh (result : BackendRes (List StashEntry))
  | details (info : List Char)
  | diff (info : List Char)
deriving DecidableEq

/-- `stash` `Mode::on_enter` (`stash.rs` lines 69-81): no-op while a
response is pending; otherwise enter the refresh-waiting state, clear the
output, re-filter, clamp and spawn the stash-list refresh (the revision
argument is ignored). -/
def StashMode.on_enter (m : StashMode) : StashMode × List Req :=
  match m.state with
  | .waiting _ => (m, [])
  | _ =>
    let output := m.output.set []
    let filter := m.filter.filter StashEntry.fuzzy_matches m.entries
    let select := m.select.saturate_cursor filter.visible_indices.length
    ({ m with
      state := .waiting .refresh
      output := output
      filter := filter
      select := select }, [Req.stashRefresh])

/-- `stash` `Mode::on_response` (`stash.rs` lines 169-197): a refresh
behaves as in branches; `Details` and `Diff` put the text (made non-empty
with a newline if needed) into the output. -/
def StashMode.on_response (m : StashMode) (r : StashResponse) :
    StashMode × List Req :=
  match r with
  | .refresh result =>
    let state := match m.state with | .waiting _ => StashState.idle | s => s
    let (entries, output) :=
      match state with
      | .idle =>
        (match result with
         | .ok es => (es, m.output.set [])
         | .err e => (([] : List StashEntry), (m.output.set []).set e))
      | _ => ([], m.output.set [])
    let filter := m.filter.filter StashEntry.fuzzy_matches entries
    let select := m.select.saturate_cursor filter.visible_indices.length
    ({ m with
      state := state
      entries := entries
      output := output
      filter := filter
      select := select }, [])
  | .details info =>
    let info := if info.isEmpty then info ++ ['\n'] else info
    ({ m with output := m.output.set info }, [])
  | .diff info =>
    let info := if info.isEmpty then info ++ ['\n'] else info
    ({ m with output := m.output.set info }, [])

/-- `State` of `diff.rs`. -/
inductive DiffState where
  | idle
  | waiting
deriving DecidableEq

/-- The `diff::Mode` state (`diff.rs`). -/
structure DiffMode where
  state : DiffState
  output : Output
  fromKind : ModeKind
deriving DecidableEq

instance : Inhabited DiffMode := ⟨⟨.idle, default, .status⟩⟩

/-- `diff` `Mode::on_enter` (`diff.rs` lines 30-37): no-op while waiting;
otherwise enter the waiting state, record the origin and clear the output
(the Diff mode spawns nothing itself — the mode that transitions into it
posts the diff content). -/
def DiffMode.on_enter (m : DiffMode) (info_from : ModeKind) : DiffMode × List Req :=
  match m.state with
  | .waiting => (m, [])
  | .idle =>
    ({ m with
      state := .waiting
      fromKind := info_from
      output := m.output.set [] }, [])

/-- `diff` `Mode::on_response` (`diff.rs` lines 61-73). -/
def DiffMode.on_response (m : DiffMode) (info : List Char) : DiffMode :=
  let state := match m.state with | .waiting => DiffState.idle | s => s
  let output := match state with | .idle => m.output.set info | _ => m.output
  { m with state := state, output := output }

/-- `RevisionInfo` from `backend.rs`. -/
structure RevisionInfo where
  message : List Char
  entries : List RevisionEntry
deriving DecidableEq

/-- `State` of `revision_details.rs`. -/
inductive RevisionDetailsState where
  | idle
  | waiting
deriving DecidableEq

/-- The `revision_details::Mode` state (`revision_details.rs`). -/
structure RevisionDetailsMode where
  state : RevisionDetailsState
  entries : List RevisionEntry
  output : Output
  select : SelectMenu
  filter : FilterW
  show_full_message : Bool
  revision : List Char
  fromKind : ModeKind
deriving DecidableEq

instance : Inhabited RevisionDetailsMode :=
  ⟨⟨.idle, [], default, default, default, false, [], .status⟩⟩

/-- `revision_details::Response` (`revision_details.rs`). -/
inductive RevisionDetailsResponse where
  | info (info : RevisionInfo)
deriving DecidableEq

/-- `revision_details` `Mode::on_response` (`revision_details.rs` lines
130-145): leave the waiting state, put the commit message into the output,
store the file entries, re-filter and clamp the cursor. -/
def RevisionDetailsMode.on_response (m : RevisionDetailsMode)
    (r : RevisionDetailsResponse) : RevisionDetailsMode × List Req :=
  match r with
  | .info info =>
    let state := match m.state with | .waiting => RevisionDetailsState.idle | s => s
    let output := m.output.set info.message
    let entries := info.entries
    let filter := m.filter.filter RevisionEntry.fuzzy_matches entries
    let select := m.select.saturate_cursor filter.visible_indices.length
    ({ m with
      state := state
      output := output
      entries := entries
      filter := filter
      select := select }, [])

/-- `LogEntry` from `backend.rs`. -/
structure LogEntry where
  graph : List Char
  hash : List Char
  date : List Char
  author : List Char
  refs : List Char
  message : List Char
deriving DecidableEq

/-- `FilterEntry for LogEntry` (`backend.rs`): fuzzy on message, refs,
author, date or hash. -/
def LogEntry.fuzzy_matches (e : LogEntry) (pattern : List Char) : Bool :=
  fuzzyOnText e.message pattern || fuzzyOnText e.refs pattern ||
    fuzzyOnText e.author pattern || fuzzyOnText e.date pattern ||
    fuzzyOnText e.hash pattern

/-- Modelled from the spec: `mode/log.rs` is declared in `mode.rs` but
absent from the sources; spec section 4.4 says the Log mode maintains
`(skip, entries)` for lazy lower-bound fetching and supports the filter. -/
structure LogMode where
  skip : Nat
  entries : List LogEntry
  output : Output
  select : SelectMenu
  filter : FilterW
deriving DecidableEq

instance : Inhabited LogMode := ⟨⟨0, [], default, default, default⟩⟩

/-- Modelled from the spec: the Log refresh response carries the new skip
and the fetched entries (`backend.log(skip, max) → (skip, Vec<LogEntry>)`,
spec section 6). -/
inductive LogResponse where
  | refresh (skip : Nat) (entries : List LogEntry)
deriving DecidableEq

/-- Modelled from the spec: folding a Log refresh stores `(skip, entries)`
and re-runs the filter, clamping the cursor (spec sections 4.4 and 4.1). -/
def LogMode.on_response (m : LogMode) (r : LogResponse) : LogMode × List Req :=
  match r with
  | .refresh skip entries =>
    let filter := m.filter.filter LogEntry.fuzzy_matches entries
    let select := m.select.saturate_cursor filter.visible_indices.length
    ({ m with
      skip := skip
      entries := entries
      filter := filter
      select := select }, [])

/-- `ModeKind` as `application.rs` uses it (six screens, with the
`RevisionDetails` variant carrying the revision id). -/
inductive AppModeKind where
  | status
  | log
  | revisionDetails (revision : List Char)
  | branches
  | tags
  | stash
deriving DecidableEq

/-- The six-variant `ModeResponse` dispatched by `application.rs`, each
variant tagged with its target mode and carrying that mode's response. -/
inductive AppResponse where
  | status (r : StatusResponse)
  | log (r : LogResponse)
  | revisionDetails (r : RevisionDetailsResponse)
  | branches (r : BranchesResponse)
  | tags (r : TagsResponse)
  | stash (r : StashResponse)

/-- A payload-free tag for the six routed mode kinds. -/
inductive AppModeTag where
  | status
  | log
  | revisionDetails
  | branches
  | tags
  | stash
deriving DecidableEq

/-- `ModeResponse::mode_kind`: the target kind a response is tagged with
(the discriminant `Application::response_mode` matches on). -/
def AppResponse.mode_kind : AppResponse → AppModeTag
  | .status _ => .status
  | .log _ => .log
  | .revisionDetails _ => .revisionDetails
  | .branches _ => .branches
  | .tags _ => .tags
  | .stash _ => .stash

/-- The `Application` state (`application.rs` lines 39-51): the current
mode kind and one persistent mode value per kind (the spinner byte is
omitted; nothing in the routed paths reads it). -/
structure Application where
  current_mode_kind : AppModeKind
  status_mode : StatusMode
  log_mode : LogMode
  revision_details_mode : RevisionDetailsMode
  branches_mode : BranchesMode
  tags_mode : TagsMode
  stash_mode : StashMode

instance : Inhabited Application :=
  ⟨⟨.status, default, default, default, default, default, default⟩⟩

/-- `Application::on_response` (`application.rs` lines 116-118), composed
with `Application::response_mode` (lines 64-73): the response is handed to
the mode field selected by the response's own variant — the current mode
kind is not consulted. -/
def Application.on_response (app : Application) (r : AppResponse) :
    Application × List Req :=
  match r with
  | .status p =>
    let x := app.status_mode.on_response p
    ({ app with status_mode := x.1 }, x.2)
  | .log p =>
    let x := app.log_mode.on_response p
    ({ app with log_mode := x.1 }, x.2)
  | .revisionDetails p =>
    let x := app.revision_details_mode.on_response p
    ({ app with revision_details_mode := x.1 }, x.2)
  | .branches p =>
    let x := app.branches_mode.on_response p
    ({ app with branches_mode := x.1 }, x.2)
  | .tags p =>
    let x := app.tags_mode.on_response p
    ({ app with tags_mode := x.1 }, x.2)
  | .stash p =>
    let x := app.stash_mode.on_response p
    ({ app with stash_mode := x.1 }, x.2)

/-- C1 counterexample: `Application::on_response` contains no current-kind
check — with the current mode kind Status, a RevisionDetails response is
still delivered to the RevisionDetails mode object and mutates its state
(its output receives the commit message), contradicting the claim that such
a response is dropped leaving all mode state unchanged. -/
theorem C1_counterexample :
    (default : Application).current_mode_kind = AppModeKind.status
    ∧ (Application.on_response default
        (AppResponse.revisionDetails (.info ⟨['m'], []⟩))).1.revision_details_mode
      ≠ (default : Application).revision_details_mode := by
  exact ⟨rfl, by decide⟩

/-- C1 (amended): `on_response` is invoked only on the mode whose kind
equals the response's target kind — dispatching a response changes neither
the current mode kind nor the state of any mode of a different kind — but
the response is always delivered to that per-kind mode object, even when it
is not the current mode. -/
theorem C1_response_routing (app : Application) (r : AppResponse) :
    (Application.on_response app r).1.current_mode_kind = app.current_mode_kind
    ∧ (r.mode_kind ≠ AppModeTag.status →
        (Application.on_response app r).1.status_mode = app.status_mode)
    ∧ (r.mode_kind ≠ AppModeTag.log →
        (Application.on_response app r).1.log_mode = app.log_mode)
    ∧ (r.mode_kind ≠ AppModeTag.revisionDetails →
        (Application.on_response app r).1.revision_details_mode = app.revision_details_mode)
    ∧ (r.mode_kind ≠ AppModeTag.branches →
        (Application.on_response app r).1.branches_mode = app.branches_mode)
    ∧ (r.mode_kind ≠ AppModeTag.tags →
        (Application.on_response app r).1.tags_mode = app.tags_mode)
    ∧ (r.mode_kind ≠ AppModeTag.stash →
        (Application.on_response app r).1.stash_mode = app.stash_mode) := by
  cases r <;>
    refine ⟨rfl, ?_, ?_, ?_, ?_, ?_, ?_⟩ <;>
    intro h <;>
    first
      | rfl
      | exact absurd rfl h

/-- Witness for C1 at a concrete input: delivering a RevisionDetails
response leaves the Status mode untouched. -/
theorem C1_response_routing_witness :
    (Application.on_response default
      (AppResponse.revisionDetails (.info ⟨['m'], []⟩))).1.status_mode
      = (default : Application).status_mode :=
  (C1_response_routing default (AppResponse.revisionDetails (.info ⟨['m'], []⟩))).2.1
    (by decide)

/-- C10: for each list-based mode (Status, Branches, Stash, Diff), calling
`on_enter` while the mode is already in a waiting state is a no-op — the
mode value (state, entries, output, filter, selection) is returned unchanged
and no background request is spawned. -/
theorem C10_on_enter_waiting_is_noop :
    (∀ (m : StatusMode) (k : ModeKind) (op : StatusWaitOperation),
        m.state = .waiting op → m.on_enter k = (m, []))
    ∧ (∀ (m : BranchesMode) (op : BranchesWaitOperation),
        m.state = .waiting op → m.on_enter = (m, []))
    ∧ (∀ (m : StashMode) (op : StashWaitOperation),
        m.state = .waiting op → m.on_enter = (m, []))
    ∧ (∀ (m : DiffMode) (k : ModeKind),
        m.state = .waiting → m.on_enter k = (m, [])) := by
  refine ⟨?_, ?_, ?_, ?_⟩
  · intro m k op h
    unfold StatusMode.on_enter
    rw [h]
  · intro m op h
    unfold BranchesMode.on_enter
    rw [h]
  · intro m op h
    unfold StashMode.on_enter
    rw [h]
  · intro m k h
    unfold DiffMode.on_enter
    rw [h]

/-- Witness for C10 at a concrete input: a Status mode already waiting for a
refresh ignores `on_enter` and spawns nothing. -/
theorem C10_on_enter_waiting_is_noop_witness :
    StatusMode.on_enter ⟨.waiting .refresh, [], default, default, default, .status⟩
      ModeKind.log
      = (⟨.waiting .refresh, [], default, default, default, .status⟩, []) :=
  C10_on_enter_waiting_is_noop.1
    ⟨.waiting .refresh, [], default, default, default, .status⟩ ModeKind.log .refresh rfl
